import Mathlib

/-!
# Verification of the wfcommons `wfbench` benchmark planner and local scheduler

Shallow embedding of `src/wfcommons/wfbench/bench.py`:

* the data-footprint planner (`output_files`, `calculate_input_files`,
  the per-category and total-footprint sizing policies),
* the graph augmenter (`add_output_to_json`, `add_input_to_json`),
* the lock-file provisioner section of `WorkflowBenchmark.create_benchmark`,
* the polling scheduler of `WorkflowBenchmark.run` and its exception handler.

Python dictionaries keyed by task name are modelled as association lists in
insertion order; the caller-supplied per-category size table `data` is a total
function `String → Nat` (the Python code raises `KeyError` when a category is
missing, so every theorem about the per-category policy implicitly assumes a
covering table).  Python's `round` (applied by the code to
`data * 1000000 / num_total_files`) is modelled exactly on the rational value
as round-half-to-even (`pyRound`).
-/

/-- A file declaration attached to a task in the plan JSON
(an element of `task["files"]`): link is `"input"` or `"output"`. -/
structure WFile where
  link : String
  name : String
  size : Nat
deriving DecidableEq, Repr

/-- A task of the raw topology consumed by the planner: its name, its
category, and its parent/child name lists (`task["parents"]`,
`task["children"]` in the JSON document). -/
structure WTask where
  name : String
  category : String
  parents : List String
  children : List String
deriving DecidableEq, Repr

/-- Python dictionary lookup `tasks = {task["name"]: task for task in wf["workflow"]["tasks"]}`:
first task carrying the given name. -/
def findTask (tasks : List WTask) (n : String) : Option WTask :=
  tasks.find? (fun t => t.name == n)

/-- One entry of the dictionary built by `output_files` for a single task
`t`: the list of `(consumer, size)` pairs.  A task with no children sizes a
single self-named artifact with its own category size; otherwise every edge
`(t, child)` is sized with the child's category size. -/
def outputsOfTask (tasks : List WTask) (data : String → Nat) (t : WTask) :
    List (String × Nat) :=
  if t.children.isEmpty then [(t.name, data t.category)]
  else t.children.filterMap
    (fun c => (findTask tasks c).map (fun u => (c, data u.category)))

/-- The OUTPUT file declarations `add_output_to_json` appends to task `t`
under the per-category policy: one per entry of `output_files[t]`, named
`f"{task['name']}_{child}_output.txt"`. -/
def outputDeclsDict (tasks : List WTask) (data : String → Nat) (t : WTask) :
    List WFile :=
  (outputsOfTask tasks data t).map
    (fun pr => ⟨"output", t.name ++ "_" ++ pr.1 ++ "_output.txt", pr.2⟩)

/-- The inverted dictionary `input_files[child]` built at the top of
`add_input_to_json`: the `(parent, size)` pairs for a given consumer name,
in plan order of the parents. -/
def inputPairs (tasks : List WTask) (data : String → Nat) (childName : String) :
    List (String × Nat) :=
  tasks.filterMap (fun p =>
    ((outputsOfTask tasks data p).find? (fun pr => pr.1 == childName)).map
      (fun pr => (p.name, pr.2)))

/-- The INPUT file declarations `add_input_to_json` appends to task `t`
under the per-category policy: roots declare one synthetic
`f"{task['name']}_input.txt"` sized with their own category size; non-roots
declare `f"{parent}_{task['name']}_output.txt"` for every entry of
`input_files[t]`. -/
def inputDeclsDict (tasks : List WTask) (data : String → Nat) (t : WTask) :
    List WFile :=
  if t.parents.isEmpty then [⟨"input", t.name ++ "_input.txt", data t.category⟩]
  else (inputPairs tasks data t.name).map
    (fun pr => ⟨"input", pr.1 ++ "_" ++ t.name ++ "_output.txt", pr.2⟩)

/-- Contents of `task["files"]` after the per-category branch of `create_benchmark`:
`add_output_to_json` runs first, then `add_input_to_json`. -/
def filesOfTaskDict (tasks : List WTask) (data : String → Nat) (t : WTask) :
    List WFile :=
  outputDeclsDict tasks data t ++ inputDeclsDict tasks data t

/-- Contents of `task["files"]` after the total-footprint branch of `create_benchmark`:
`add_output_to_json(wf, file_size)` appends one OUTPUT
`f"{task['name']}_output.txt"` per task, then `add_input_to_json` appends
`f"{task['name']}_input.txt"` for roots and one
`f"{parent}_output.txt"` per parent for non-roots, all of size
`file_size`. -/
def filesOfTaskInt (fileSize : Nat) (t : WTask) : List WFile :=
  ⟨"output", t.name ++ "_output.txt", fileSize⟩ ::
    (if t.parents.isEmpty then [⟨"input", t.name ++ "_input.txt", fileSize⟩]
     else t.parents.map (fun p => ⟨"input", p ++ "_output.txt", fileSize⟩))

/-- Embedding of `calculate_input_files`: one pass over the tasks counting roots
(`tasks_need_input`) and non-roots (`tasks_dont_need_input`), returning
`(tasks_need_input, tasks_need_input * 2 + tasks_dont_need_input)`. -/
def calculate_input_files (tasks : List WTask) : Nat × Nat :=
  let counts := tasks.foldl
    (fun (acc : Nat × Nat) t =>
      if t.parents.isEmpty then (acc.1 + 1, acc.2) else (acc.1, acc.2 + 1))
    (0, 0)
  (counts.1, counts.1 * 2 + counts.2)

/-- Python's `round(num / den)` on the exact rational value of two
non-negative integers: round half to even. -/
def pyRound (num den : Nat) : Nat :=
  let q := num / den
  let r := num % den
  if den < 2 * r then q + 1
  else if 2 * r < den then q
  else if q % 2 == 0 then q else q + 1

/-- The quantity `file_size = round(data * 1000000 / num_total_files)` in the
total-footprint branch of `create_benchmark` (`data` in MB). -/
def benchFileSize (tasks : List WTask) (d : Nat) : Nat :=
  pyRound (d * 1000000) (calculate_input_files tasks).2

/-- One finalized task of the plan document written by `create_benchmark`:
its name, its `files` list and its `command.arguments` list. -/
structure TaskPlan where
  name : String
  files : List WFile
  args : List String
deriving DecidableEq, Repr

/-- The `data` parameter of `create_benchmark`: absent, a per-category size
table (Python `dict`), or a total footprint in MB (Python `int`). -/
inductive DataSpec where
  | noData
  | dict (data : String → Nat)
  | total (d : Nat)

/-- Outcome of the lock-file section of `create_benchmark` (lines 117-129):
no folder supplied; folder created and both artifacts opened; `mkdir` raised
(so the locals `lock`/`cores` were never assigned); or the artifact `open`
raised (after `lock`/`cores` were assigned). -/
inductive LockSetup where
  | notGiven
  | created
  | mkdirFails
  | openFails
deriving DecidableEq, Repr

/-- Whether the `except` branch logs its warning
(`"Could not find folder to create lock files ..."`). -/
def lockWarning : LockSetup → Bool
  | .mkdirFails => true
  | .openFails => true
  | _ => false

/-- The two lock parameters added to every task's arguments when a
lock-files folder was supplied: `f"--path-lock {lock}"` and
`f"--path-cores {cores}"` with `lock = folder/cores.txt.lock` and
`cores = folder/cores.txt`. -/
def lockParams (folder : String) : List String :=
  ["--path-lock " ++ folder ++ "/cores.txt.lock",
   "--path-cores " ++ folder ++ "/cores.txt"]

/-- The lock parameters reaching the argument-assembly loop: empty when no
folder was supplied, otherwise the two `--path-...` strings (the Python
locals `lock`/`cores` hold these paths whenever the `mkdir` call
succeeded). -/
def lockList (ls : LockSetup) (folder : String) : List String :=
  match ls with
  | .notGiven => []
  | _ => lockParams folder

/-- Whether `generate_data_for_root_nodes` runs: only when a data policy is
active. -/
def genRootData (ds : DataSpec) : Bool :=
  match ds with
  | .noData => false
  | _ => true

/-- The arguments assembled for every task before any data policy runs:
`[task["name"], f"--percent-cpu {p}", f"--cpu-work {w}"]` plus the lock
parameters when a folder was supplied.  The scalar-or-dict resolution and
numeric formatting of `percent_cpu`/`cpu_work` are abstracted into the
functions `pc`/`cw`. -/
def baseArgs (pc cw : WTask → String) (locks : List String) (t : WTask) :
    List String :=
  [t.name, "--percent-cpu " ++ pc t, "--cpu-work " ++ cw t] ++ locks

/-- Rendering of the `f"--out {mapping}"` argument; the payload is Python's
`dict` repr of a name-to-size mapping (its quoting is abstracted, no claim
inspects the payload text). -/
def outArg (prs : List (String × Nat)) : String :=
  "--out " ++ "\x7b"
    ++ String.intercalate ", " (prs.map (fun pr => pr.1 ++ ": " ++ toString pr.2))
    ++ "\x7d"

/-- The trailing positional input-file names `add_input_to_json` appends to
`command.arguments` (its local list `inputs`). -/
def argInputNames (tasks : List WTask) (ds : DataSpec) (t : WTask) :
    List String :=
  match ds with
  | .noData => []
  | .dict data => (inputDeclsDict tasks data t).map (fun f => f.name)
  | .total _ =>
      if t.parents.isEmpty then [t.name ++ "_input.txt"]
      else t.parents.map (fun p => p ++ "_output.txt")

/-- The finalized plan entry for one task, following `create_benchmark`:
the base arguments, then (when a data policy is active) the `--out`
argument, the file declarations, and the positional input names. -/
def taskPlanOf (tasks : List WTask) (pc cw : WTask → String)
    (locks : List String) (ds : DataSpec) (t : WTask) : TaskPlan :=
  match ds with
  | .noData => ⟨t.name, [], baseArgs pc cw locks t⟩
  | .dict data =>
      ⟨t.name, filesOfTaskDict tasks data t,
        baseArgs pc cw locks t
          ++ [outArg ((outputsOfTask tasks data t).map
                (fun pr => (t.name ++ "_" ++ pr.1 ++ "_output.txt", pr.2)))]
          ++ argInputNames tasks ds t⟩
  | .total d =>
      let fs := benchFileSize tasks d
      ⟨t.name, filesOfTaskInt fs t,
        baseArgs pc cw locks t
          ++ [outArg [(t.name ++ "_output.txt", fs)]]
          ++ argInputNames tasks ds t⟩

/-- Embedding of `WorkflowBenchmark.create_benchmark` from the lock-file section on:
returns the finalized plan (one `TaskPlan` per task) and whether root input
data was generated on disk (`generate_data_for_root_nodes` runs only when a
data policy is active).  When `mkdir` on the lock folder raised, the locals
`lock`/`cores` were never bound, so building the first task's parameters
raises `UnboundLocalError`; with no tasks that line never runs and creation
completes. -/
def createBenchmark (tasks : List WTask) (pc cw : WTask → String)
    (ls : LockSetup) (folder : String) (ds : DataSpec) :
    Except String (List TaskPlan × Bool) :=
  match ls, tasks with
  | .mkdirFails, _ :: _ => .error "UnboundLocalError"
  | _, _ =>
      .ok (tasks.map (taskPlanOf tasks pc cw (lockList ls folder) ds),
           genRootData ds)

/-! ## The local scheduler (`WorkflowBenchmark.run`) -/

/-- What the scheduler reads off a plan task: its name and its declared
INPUT file names (the readiness test iterates
`task["files"]` filtered on `link == "input"`). -/
structure SchedTask where
  name : String
  inputs : List String
deriving DecidableEq, Repr

/-- Extraction of a `SchedTask` from a finalized plan entry. -/
def schedTaskOfPlan (tp : TaskPlan) : SchedTask :=
  ⟨tp.name, (tp.files.filter (fun f => f.link == "input")).map (fun f => f.name)⟩

/-- One launch performed by the scheduler: during which polling pass, at
which task index, which task, and which input files were observed present
just before the launch. -/
structure LaunchEvent where
  passIdx : Nat
  taskIdx : Nat
  taskName : String
  inputs : List String
deriving DecidableEq, Repr

/-- One full pass of the inner `for task in wf["workflow"]["tasks"]` loop:
tasks already in `has_executed` are skipped; otherwise the readiness test
consults the filesystem oracle `present` (indexed by pass and task position,
since the disk may change between the individual `exists()` calls); a ready
task is added to `has_executed` and its process launch is recorded. -/
def schedPass (present : Nat → Nat → String → Bool) (p : Nat) :
    List SchedTask → Nat → List String → List LaunchEvent →
    List String × List LaunchEvent
  | [], _, ex, tr => (ex, tr)
  | t :: rest, i, ex, tr =>
    if t.name ∈ ex then schedPass present p rest (i + 1) ex tr
    else if t.inputs.all (fun f => present p i f) then
      schedPass present p rest (i + 1) (ex ++ [t.name]) (tr ++ [⟨p, i, t.name, t.inputs⟩])
    else schedPass present p rest (i + 1) ex tr

/-- The outer `while len(has_executed) < len(tasks)` loop, fuelled so that
every run is a finite prefix of the Python loop's behaviour; returns the
launch trace. -/
def schedRun (present : Nat → Nat → String → Bool) (tasks : List SchedTask) :
    Nat → Nat → List String → List LaunchEvent → List LaunchEvent
  | 0, _, _, tr => tr
  | fuel + 1, p, ex, tr =>
    if tasks.length ≤ ex.length then tr
    else
      let r := schedPass present p tasks 0 ex tr
      schedRun present tasks fuel (p + 1) r.1 r.2

/-- Correctness of one recorded launch: the launched task is the one at the
recorded position of the workload, and every one of its declared INPUT
files was observed present by the readiness test that preceded the
launch. -/
def EventOk (tasks : List SchedTask) (present : Nat → Nat → String → Bool)
    (e : LaunchEvent) : Prop :=
  tasks[e.taskIdx]? = some ⟨e.taskName, e.inputs⟩
  ∧ e.inputs.all (fun f => present e.passIdx e.taskIdx f) = true

/-- A Python exception, by type name and message. -/
structure PyError where
  ty : String
  msg : String
deriving DecidableEq, Repr

/-- Side effects performed by the `except` branch of
`WorkflowBenchmark.run`. -/
inductive RunEffect where
  | killProcessesByName (n : String)
  | cleanupSysFiles
deriving DecidableEq, Repr

/-- The `except Exception` handler of `WorkflowBenchmark.run`: regardless of
the caught error it runs `killall stress-ng`, runs `cleanup_sys_files()`,
prints the traceback, and raises
`FileNotFoundError("Not able to find the executable.")`. -/
def runExceptHandler (_orig : PyError) : List RunEffect × PyError :=
  ([.killProcessesByName "stress-ng", .cleanupSysFiles],
   ⟨"FileNotFoundError", "Not able to find the executable."⟩)

/-- Every file declaration of the finalized total-footprint plan, in plan
order (`wf["workflow"]["tasks"]`, each task's `files` list). -/
def planAllFilesInt (tasks : List WTask) (fileSize : Nat) : List WFile :=
  tasks.flatMap (filesOfTaskInt fileSize)

/-- The declared file names of the total-footprint plan (with the
producer/consumer duplications of the `files` lists). -/
def planFileNames (tasks : List WTask) (fileSize : Nat) : List String :=
  (planAllFilesInt tasks fileSize).map (fun f => f.name)

/-- The size the plan declares for a given file name (file names are
globally unique within a plan, so the first declaration is the file). -/
def sizeOfName (tasks : List WTask) (fileSize : Nat) (n : String) : Nat :=
  (((planAllFilesInt tasks fileSize).find? (fun f => f.name == n)).map
    (fun f => f.size)).getD 0

/-- The total footprint of the finalized total-footprint plan: the sum of
the sizes of all distinct files it declares. -/
def planTotalBytesInt (tasks : List WTask) (fileSize : Nat) : Nat :=
  ((planFileNames tasks fileSize).dedup.map
    (sizeOfName tasks fileSize)).sum

/-! ## Concrete fixtures -/

/-- Number of root tasks (empty `parents`). -/
def countRoots (tasks : List WTask) : Nat :=
  (tasks.filter (fun t => t.parents.isEmpty)).length

/-- Number of non-root tasks (non-empty `parents`). -/
def countNonRoots (tasks : List WTask) : Nat :=
  (tasks.filter (fun t => !t.parents.isEmpty)).length

/-- A 3-task linear chain root → mid → sink. -/
def chain3 : List WTask :=
  [⟨"root", "root", [], ["mid"]⟩,
   ⟨"mid", "mid", ["root"], ["sink"]⟩,
   ⟨"sink", "sink", ["mid"], []⟩]

/-- A 2-task chain a → b. -/
def chain2 : List WTask :=
  [⟨"a", "A", [], ["b"]⟩,
   ⟨"b", "B", ["a"], []⟩]

/-- Per-category sizes for `chain2`: category `A` gets 5 bytes, `B` 7. -/
def dataChain2 : String → Nat :=
  fun c => if c == "B" then 7 else 5

/-- The 4-task diamond A → B, A → C, B → D, C → D. -/
def diamond : List WTask :=
  [⟨"A", "A", [], ["B", "C"]⟩,
   ⟨"B", "B", ["A"], ["D"]⟩,
   ⟨"C", "C", ["A"], ["D"]⟩,
   ⟨"D", "D", ["B", "C"], []⟩]

/-- The task `D` of the diamond. -/
def diamondD : WTask := ⟨"D", "D", ["B", "C"], []⟩

/-- Per-category sizes for the diamond: `{A: 0, B: 100, C: 100, D: 0}`. -/
def dataDiamond : String → Nat :=
  fun c => if c == "B" || c == "C" then 100 else 0

/-- A 1-element scheduler workload used as a witness instance. -/
def schedTasks1 : List SchedTask :=
  [⟨"a", ["a_input.txt"]⟩]

/-- A filesystem oracle that reports every file present. -/
def presentAll : Nat → Nat → String → Bool := fun _ _ _ => true

/-- A 1-task finalized plan entry used as a witness instance. -/
def planSolo : TaskPlan := ⟨"a", [⟨"input", "x.txt", 1⟩], []⟩

/-- A constant `percent_cpu` formatting function (scalar `0.6` broadcast). -/
def pcW : WTask → String := fun _ => "0.6"

/-- A constant `cpu_work` formatting function (scalar `1000` broadcast). -/
def cwW : WTask → String := fun _ => "1000"

/-- A single isolated task. -/
def taskSolo : WTask := ⟨"solo", "solo", [], []⟩

/-- A realistic original fault inside `run`: the plan JSON (or the external
executable) is missing, so Python raises a `FileNotFoundError` before the
handler runs. -/
def fnfErr : PyError :=
  ⟨"FileNotFoundError", "No such file or directory: benchmark.json"⟩


/-! ## Theorems -/

lemma calc_input_files_foldl (tasks : List WTask) : ∀ a b : Nat,
    tasks.foldl
      (fun (acc : Nat × Nat) t =>
        if t.parents.isEmpty then (acc.1 + 1, acc.2) else (acc.1, acc.2 + 1))
      (a, b)
      = (a + countRoots tasks, b + countNonRoots tasks) := by
  induction tasks with
  | nil => intro a b; simp [countRoots, countNonRoots]
  | cons t ts ih =>
    intro a b
    by_cases h : t.parents.isEmpty
    · simp only [List.foldl_cons, h, reduceIte]
      rw [ih]
      simp [countRoots, countNonRoots, List.filter_cons, h, Prod.mk.injEq]
      omega
    · rw [Bool.not_eq_true] at h
      simp only [List.foldl_cons, h, reduceIte]
      rw [ih]
      simp [countRoots, countNonRoots, List.filter_cons, h, Prod.mk.injEq]
      omega

/-- C3: for every DAG, the total-file count computed by
`calculate_input_files` for the total-footprint policy equals
`2 * (number of root tasks) + (number of non-root tasks)`. -/
theorem calculate_input_files_total (tasks : List WTask) :
    (calculate_input_files tasks).2
      = 2 * (tasks.filter (fun t => t.parents.isEmpty)).length
        + (tasks.filter (fun t => !t.parents.isEmpty)).length := by
  unfold calculate_input_files
  rw [show ((0, 0) : Nat × Nat) = ((0 : Nat), (0 : Nat)) from rfl,
    calc_input_files_foldl]
  simp only [countRoots, countNonRoots, Nat.zero_add]
  ring

/-- C4: under the total-footprint policy with `d` MB over a non-empty
graph, every declared file (each task's OUTPUT, each root's synthetic
INPUT, each non-root's per-parent INPUT) has the single size
`round(d * 1000000 / total_files)`; concretely, for the 3-task linear
chain and `d = 10`, `total_files = 4` and every declared file has size
`2500000`. -/
theorem total_policy_uniform_file_size (tasks : List WTask) (d : Nat)
    (hne : tasks ≠ []) :
    (∀ t ∈ tasks, ∀ f ∈ filesOfTaskInt (benchFileSize tasks d) t,
        f.size = benchFileSize tasks d)
    ∧ (calculate_input_files chain3).2 = 4
    ∧ benchFileSize chain3 10 = 2500000
    ∧ ∀ t ∈ chain3, ∀ f ∈ filesOfTaskInt (benchFileSize chain3 10) t,
        f.size = 2500000 := by
  refine ⟨?_, by decide, by decide, by decide⟩
  intro t _ht f hf
  unfold filesOfTaskInt at hf
  rcases List.mem_cons.mp hf with h1 | h2
  · rw [h1]
  · by_cases hp : t.parents.isEmpty
    · rw [if_pos hp] at h2
      simp only [List.mem_singleton] at h2
      rw [h2]
    · rw [if_neg hp] at h2
      obtain ⟨p, _hp2, hpf⟩ := List.mem_map.mp h2
      rw [← hpf]

/-- Witness for `total_policy_uniform_file_size` at the 3-task chain with
`d = 10`. -/
theorem total_policy_uniform_file_size_witness :
    benchFileSize chain3 10 = 2500000 :=
  (total_policy_uniform_file_size chain3 10 (by decide)).2.2.1

lemma findTask_of_mem {tasks : List WTask} {T : WTask} (hT : T ∈ tasks) :
    ∃ u, findTask tasks T.name = some u ∧ u.name = T.name := by
  have hs : (tasks.find? (fun t => t.name == T.name)).isSome :=
    List.find?_isSome.mpr ⟨T, hT, by simp⟩
  obtain ⟨u, hu⟩ := Option.isSome_iff_exists.mp hs
  exact ⟨u, hu, by simpa using List.find?_some hu⟩

/-- C1: in every finalized plan, for every non-root task `T` and every
parent `P` of `T` (with the graph's mutual parent/child consistency), `T`
declares an INPUT file whose name and size are identical to an OUTPUT file
declared by `P` for the edge `(P, T)`: name `<P>_<T>_output.txt` under the
per-category policy, `<P>_output.txt` under the total-footprint policy. -/
theorem input_matches_parent_output :
    (∀ (tasks : List WTask) (data : String → Nat) (T P : WTask),
      T ∈ tasks → P ∈ tasks → ¬ T.parents.isEmpty = true →
      P.name ∈ T.parents → T.name ∈ P.children →
      ∃ fIn ∈ filesOfTaskDict tasks data T,
        ∃ fOut ∈ filesOfTaskDict tasks data P,
          fIn.link = "input" ∧ fOut.link = "output"
          ∧ fIn.name = P.name ++ "_" ++ T.name ++ "_output.txt"
          ∧ fOut.name = fIn.name ∧ fOut.size = fIn.size)
    ∧ (∀ (tasks : List WTask) (fileSize : Nat) (T P : WTask),
      T ∈ tasks → P ∈ tasks → ¬ T.parents.isEmpty = true →
      P.name ∈ T.parents →
      ∃ fIn ∈ filesOfTaskInt fileSize T,
        ∃ fOut ∈ filesOfTaskInt fileSize P,
          fIn.link = "input" ∧ fOut.link = "output"
          ∧ fIn.name = P.name ++ "_output.txt"
          ∧ fOut.name = fIn.name ∧ fOut.size = fIn.size) := by
  constructor
  · intro tasks data T P hT hP hnr hpar hchild
    obtain ⟨u, hu, hun⟩ := findTask_of_mem hT
    -- `output_files[P]` has an entry keyed by `T.name`
    have hPc : ¬ P.children.isEmpty = true := by
      cases hc : P.children with
      | nil => rw [hc] at hchild; cases hchild
      | cons x xs => simp [hc]
    have hmem : (T.name, data u.category) ∈ outputsOfTask tasks data P := by
      unfold outputsOfTask
      rw [if_neg hPc]
      exact List.mem_filterMap.mpr ⟨T.name, hchild, by rw [hu]; rfl⟩
    -- the first such entry, found by `find?` when inverting into `input_files`
    have hsome : ((outputsOfTask tasks data P).find?
        (fun pr => pr.1 == T.name)).isSome :=
      List.find?_isSome.mpr ⟨(T.name, data u.category), hmem, by simp⟩
    obtain ⟨pr, hpr⟩ := Option.isSome_iff_exists.mp hsome
    have hpr1 : pr.1 = T.name := by simpa using List.find?_some hpr
    have hprmem : pr ∈ outputsOfTask tasks data P :=
      List.mem_of_find?_eq_some hpr
    refine ⟨⟨"input", P.name ++ "_" ++ T.name ++ "_output.txt", pr.2⟩, ?_,
      ⟨"output", P.name ++ "_" ++ pr.1 ++ "_output.txt", pr.2⟩, ?_, rfl, rfl,
      rfl, by rw [hpr1], rfl⟩
    · unfold filesOfTaskDict inputDeclsDict
      rw [if_neg hnr]
      refine List.mem_append_right _ (List.mem_map.mpr ⟨(P.name, pr.2), ?_, rfl⟩)
      exact List.mem_filterMap.mpr ⟨P, hP, by rw [hpr]; rfl⟩
    · exact List.mem_append_left _ (List.mem_map.mpr ⟨pr, hprmem, rfl⟩)
  · intro tasks fileSize T P _hT _hP hnr hpar
    refine ⟨⟨"input", P.name ++ "_output.txt", fileSize⟩, ?_,
      ⟨"output", P.name ++ "_output.txt", fileSize⟩, ?_, rfl, rfl, rfl, rfl, rfl⟩
    · unfold filesOfTaskInt
      refine List.mem_cons_of_mem _ ?_
      rw [if_neg hnr]
      exact List.mem_map.mpr ⟨P.name, hpar, rfl⟩
    · exact List.mem_cons_self _ _

/-- Witness for `input_matches_parent_output` on the 2-task chain `a → b`
(per-category sizes) and the same chain under the total-footprint policy. -/
theorem input_matches_parent_output_witness :
    (∃ fIn ∈ filesOfTaskDict chain2 dataChain2 ⟨"b", "B", ["a"], []⟩,
      ∃ fOut ∈ filesOfTaskDict chain2 dataChain2 ⟨"a", "A", [], ["b"]⟩,
        fIn.link = "input" ∧ fOut.link = "output"
        ∧ fIn.name = "a" ++ "_" ++ "b" ++ "_output.txt"
        ∧ fOut.name = fIn.name ∧ fOut.size = fIn.size)
    ∧ (∃ fIn ∈ filesOfTaskInt 2500000 ⟨"b", "B", ["a"], []⟩,
      ∃ fOut ∈ filesOfTaskInt 2500000 ⟨"a", "A", [], ["b"]⟩,
        fIn.link = "input" ∧ fOut.link = "output"
        ∧ fIn.name = "a" ++ "_output.txt"
        ∧ fOut.name = fIn.name ∧ fOut.size = fIn.size) :=
  ⟨input_matches_parent_output.1 chain2 dataChain2 _ _
      (by decide) (by decide) (by decide) (by decide) (by decide),
    input_matches_parent_output.2 chain2 2500000 _ _
      (by decide) (by decide) (by decide) (by decide)⟩

lemma string_append_cancel_right {a b s : String} (h : a ++ s = b ++ s) :
    a = b := by
  have hd : a.data ++ s.data = b.data ++ s.data := by
    rw [← String.data_append, ← String.data_append, h]
  have hab := List.append_cancel_right hd
  cases a
  cases b
  exact congrArg String.mk hab

lemma string_output_ne_input (a b : String) :
    a ++ "_output.txt" ≠ b ++ "_input.txt" := by
  intro h
  have hd : a.data ++ "_output.txt".data = b.data ++ "_input.txt".data := by
    rw [← String.data_append, ← String.data_append, h]
  have hr := congrArg List.reverse hd
  rw [List.reverse_append, List.reverse_append] at hr
  have e1 : "_output.txt".data.reverse
      = ['t', 'x', 't', '.', 't', 'u', 'p', 't', 'u', 'o', '_'] := rfl
  have e2 : "_input.txt".data.reverse
      = ['t', 'x', 't', '.', 't', 'u', 'p', 'n', 'i', '_'] := rfl
  rw [e1, e2] at hr
  simp only [List.cons_append, List.nil_append, List.cons.injEq] at hr
  exact absurd hr.2.2.2.2.2.2.2.1 (by decide)

/-- C9: under the per-category policy, every task `T` with at least one
parent and no children declares, besides its per-parent INPUTs, an extra
INPUT named `<T>_<T>_output.txt` sized with `T`'s own category size, and the
matching OUTPUT declaration is on `T` itself — no parent of `T` declares an
OUTPUT of that name (given that no parent/child name pair splices to the
same string, which holds for any graph without such name collisions). -/
theorem sink_self_input (tasks : List WTask) (data : String → Nat) (T : WTask)
    (hT : T ∈ tasks) (hnr : ¬ T.parents.isEmpty = true)
    (hsink : T.children = []) :
    (⟨"input", T.name ++ "_" ++ T.name ++ "_output.txt", data T.category⟩ : WFile)
        ∈ filesOfTaskDict tasks data T
    ∧ (⟨"output", T.name ++ "_" ++ T.name ++ "_output.txt", data T.category⟩ : WFile)
        ∈ filesOfTaskDict tasks data T
    ∧ ∀ P ∈ tasks, P.name ∈ T.parents →
        (∀ pr ∈ outputsOfTask tasks data P,
            P.name ++ "_" ++ pr.1 ≠ T.name ++ "_" ++ T.name) →
        ∀ g ∈ filesOfTaskDict tasks data P, g.link = "output" →
          g.name ≠ T.name ++ "_" ++ T.name ++ "_output.txt" := by
  have houts : outputsOfTask tasks data T = [(T.name, data T.category)] := by
    unfold outputsOfTask
    rw [if_pos (by rw [hsink]; rfl)]
  refine ⟨?_, ?_, ?_⟩
  · unfold filesOfTaskDict inputDeclsDict
    rw [if_neg hnr]
    refine List.mem_append_right _
      (List.mem_map.mpr ⟨(T.name, data T.category), ?_, rfl⟩)
    refine List.mem_filterMap.mpr ⟨T, hT, ?_⟩
    rw [houts]
    simp [List.find?]
  · unfold filesOfTaskDict outputDeclsDict
    refine List.mem_append_left _ ?_
    rw [houts]
    exact List.mem_map.mpr ⟨(T.name, data T.category), List.mem_singleton.mpr rfl, rfl⟩
  · intro P _hP _hpar hcoll g hg hglink hgname
    unfold filesOfTaskDict at hg
    rcases List.mem_append.mp hg with hout | hin
    · obtain ⟨pr, hprmem, hpreq⟩ := List.mem_map.mp hout
      have : P.name ++ "_" ++ pr.1 = T.name ++ "_" ++ T.name := by
        apply string_append_cancel_right (s := "_output.txt")
        rw [← hpreq] at hgname
        simpa [String.append_assoc] using hgname
      exact hcoll pr hprmem this
    · unfold inputDeclsDict at hin
      by_cases hproot : P.parents.isEmpty
      · rw [if_pos hproot] at hin
        rw [List.mem_singleton.mp hin] at hglink
        simp at hglink
      · rw [if_neg hproot] at hin
        obtain ⟨pr, _, hpreq⟩ := List.mem_map.mp hin
        rw [← hpreq] at hglink
        simp at hglink

/-- Witness for `sink_self_input` at the sink `b` of the 2-task chain. -/
theorem sink_self_input_witness :
    (⟨"input", "b" ++ "_" ++ "b" ++ "_output.txt", dataChain2 "B"⟩ : WFile)
      ∈ filesOfTaskDict chain2 dataChain2 ⟨"b", "B", ["a"], []⟩ :=
  (sink_self_input chain2 dataChain2 ⟨"b", "B", ["a"], []⟩
    (by decide) (by decide) (by decide)).1

/-- Counterexample to C6: in the finalized per-category plan for the 4-task
diamond with sizes `{A: 0, B: 100, C: 100, D: 0}`, task `D` does NOT declare
exactly two INPUTs, and declares no INPUT of size 100 at all — its INPUT
declarations are `B_D_output.txt`, `C_D_output.txt` and the self-input
`D_D_output.txt`, every one of size 0 (each edge into `D` is sized by the
consumer `D`'s category size, which is 0). -/
theorem diamond_D_inputs_counterexample :
    ((filesOfTaskDict diamond dataDiamond diamondD).filter
        (fun f => f.link == "input"))
      = [⟨"input", "B_D_output.txt", 0⟩, ⟨"input", "C_D_output.txt", 0⟩,
         ⟨"input", "D_D_output.txt", 0⟩]
    ∧ ((filesOfTaskDict diamond dataDiamond diamondD).filter
        (fun f => f.link == "input")).length ≠ 2
    ∧ ((filesOfTaskDict diamond dataDiamond diamondD).filter
        (fun f => f.link == "input" && f.size == 100)).length ≠ 2 := by
  refine ⟨by decide, by decide, by decide⟩

/-- C6 (amended): for the 4-task diamond under the per-category policy with
sizes `{A: 0, B: 100, C: 100, D: 0}`, `B` and `C` each declare exactly one
INPUT of size 100 matching `A`'s two OUTPUT declarations of size 100
(edges into `B`/`C` are sized by the consumers' categories), while `D`
declares exactly three INPUTs each of size 0 — one per parent edge from `B`
and `C` plus a self-input `D_D_output.txt` — matching `B`'s, `C`'s and `D`'s
OUTPUT declarations of size 0 (edges into `D` are sized by `D`'s category). -/
theorem diamond_per_category_plan :
    (filesOfTaskDict diamond dataDiamond ⟨"A", "A", [], ["B", "C"]⟩).filter
        (fun f => f.link == "output")
      = [⟨"output", "A_B_output.txt", 100⟩, ⟨"output", "A_C_output.txt", 100⟩]
    ∧ (filesOfTaskDict diamond dataDiamond ⟨"B", "B", ["A"], ["D"]⟩).filter
        (fun f => f.link == "input")
      = [⟨"input", "A_B_output.txt", 100⟩]
    ∧ (filesOfTaskDict diamond dataDiamond ⟨"C", "C", ["A"], ["D"]⟩).filter
        (fun f => f.link == "input")
      = [⟨"input", "A_C_output.txt", 100⟩]
    ∧ (filesOfTaskDict diamond dataDiamond diamondD).filter
        (fun f => f.link == "input")
      = [⟨"input", "B_D_output.txt", 0⟩, ⟨"input", "C_D_output.txt", 0⟩,
         ⟨"input", "D_D_output.txt", 0⟩]
    ∧ (filesOfTaskDict diamond dataDiamond ⟨"B", "B", ["A"], ["D"]⟩).filter
        (fun f => f.link == "output")
      = [⟨"output", "B_D_output.txt", 0⟩]
    ∧ (filesOfTaskDict diamond dataDiamond ⟨"C", "C", ["A"], ["D"]⟩).filter
        (fun f => f.link == "output")
      = [⟨"output", "C_D_output.txt", 0⟩]
    ∧ (filesOfTaskDict diamond dataDiamond diamondD).filter
        (fun f => f.link == "output")
      = [⟨"output", "D_D_output.txt", 0⟩] := by
  refine ⟨by decide, by decide, by decide, by decide, by decide, by decide,
    by decide⟩

/-- Counterexample to C8: the claim says the run never raises the original
exception type, but when the original fault is itself a `FileNotFoundError`
(e.g. the plan JSON or the external executable is missing), the handler
raises an exception of exactly the original type. -/
theorem run_handler_same_type_counterexample :
    (runExceptHandler fnfErr).2.ty = fnfErr.ty := rfl

/-- C8 (amended): whatever exception occurs during a scheduling run, the
handler terminates the helper `stress-ng` processes by name, performs
`cleanup_sys_files`, and raises the single generic
`FileNotFoundError("Not able to find the executable.")` — never the
original message — but the raised TYPE coincides with the original fault's
type exactly when that fault was itself a `FileNotFoundError`. -/
theorem run_handler_behavior (orig : PyError) :
    (runExceptHandler orig).1
        = [.killProcessesByName "stress-ng", .cleanupSysFiles]
    ∧ (runExceptHandler orig).2
        = ⟨"FileNotFoundError", "Not able to find the executable."⟩
    ∧ ((runExceptHandler orig).2.ty = orig.ty ↔ orig.ty = "FileNotFoundError") := by
  refine ⟨rfl, rfl, ?_⟩
  unfold runExceptHandler
  constructor
  · intro h
    exact h.symm
  · intro h
    exact h.symm

lemma append_ne_of_third_char {p q : String} (s r : String)
    (hp : 2 < p.data.length) (hq : 2 < q.data.length)
    (hne : p.data[2]? ≠ q.data[2]?) : p ++ s ≠ q ++ r := by
  intro h
  have hd : p.data ++ s.data = q.data ++ r.data := by
    rw [← String.data_append, ← String.data_append, h]
  have h2 := congrArg (fun l : List Char => l[2]?) hd
  simp only [List.getElem?_append_left hp, List.getElem?_append_left hq] at h2
  exact hne h2

/-- Counterexample to C7: with a lock-files folder supplied whose ledger
artifacts cannot be created (the folder exists — or is created — but the
two `open` calls fail), `create_benchmark` warns but the finalized one-task
plan's command arguments still contain `--path-lock` and `--path-cores`;
and when the folder itself cannot be created, plan creation does not
complete at all (the unassigned local `lock` raises `UnboundLocalError`). -/
theorem lock_failure_counterexample :
    lockWarning .openFails = true
    ∧ createBenchmark [taskSolo] pcW cwW .openFails "lockdir" .noData
        = .ok ([⟨"solo", [],
            ["solo", "--percent-cpu 0.6", "--cpu-work 1000",
             "--path-lock lockdir/cores.txt.lock",
             "--path-cores lockdir/cores.txt"]⟩], false)
    ∧ createBenchmark [taskSolo] pcW cwW .mkdirFails "lockdir" .noData
        = .error "UnboundLocalError" :=
  ⟨rfl, rfl, rfl⟩

/-- C7 (amended): when the lock-files folder is supplied but the ledger
artifacts cannot be created, a warning is emitted; if the failure hits the
artifact `open` calls (folder present), plan creation still completes but
every task's command keeps both `--path-lock` and `--path-cores` arguments
(the warning tells the user to create the files manually); if the folder
itself cannot be created, the path locals are never bound and plan creation
fails with `UnboundLocalError` instead of completing. -/
theorem lock_failure_behavior (tasks : List WTask) (pc cw : WTask → String)
    (folder : String) (ds : DataSpec) :
    lockWarning .openFails = true
    ∧ lockWarning .mkdirFails = true
    ∧ createBenchmark tasks pc cw .openFails folder ds
        = .ok (tasks.map (taskPlanOf tasks pc cw (lockParams folder) ds),
               genRootData ds)
    ∧ (∀ t ∈ tasks,
        ("--path-lock " ++ folder ++ "/cores.txt.lock")
            ∈ (taskPlanOf tasks pc cw (lockParams folder) ds t).args
        ∧ ("--path-cores " ++ folder ++ "/cores.txt")
            ∈ (taskPlanOf tasks pc cw (lockParams folder) ds t).args)
    ∧ (tasks ≠ [] →
        createBenchmark tasks pc cw .mkdirFails folder ds
          = .error "UnboundLocalError") := by
  refine ⟨rfl, rfl, ?_, ?_, ?_⟩
  · cases tasks <;> rfl
  · intro t _ht
    have hbase : ∀ a ∈ lockParams folder, a ∈ baseArgs pc cw (lockParams folder) t :=
      fun a ha => List.mem_append_right _ ha
    have h1 : ("--path-lock " ++ folder ++ "/cores.txt.lock")
        ∈ lockParams folder := by
      unfold lockParams
      rw [String.append_assoc]
      exact List.mem_cons_self _ _
    have h2 : ("--path-cores " ++ folder ++ "/cores.txt")
        ∈ lockParams folder := by
      unfold lockParams
      rw [String.append_assoc]
      exact List.mem_cons_of_mem _ (List.mem_cons_self _ _)
    cases ds with
    | noData => exact ⟨hbase _ h1, hbase _ h2⟩
    | dict data =>
        exact ⟨List.mem_append_left _ (List.mem_append_left _ (hbase _ h1)),
          List.mem_append_left _ (List.mem_append_left _ (hbase _ h2))⟩
    | total d =>
        exact ⟨List.mem_append_left _ (List.mem_append_left _ (hbase _ h1)),
          List.mem_append_left _ (List.mem_append_left _ (hbase _ h2))⟩
  · intro hne
    cases tasks with
    | nil => exact absurd rfl hne
    | cons t ts => rfl

/-- Witness for `lock_failure_behavior` at a single-task graph. -/
theorem lock_failure_behavior_witness :
    ("--path-lock " ++ "lockdir" ++ "/cores.txt.lock")
        ∈ (taskPlanOf [taskSolo] pcW cwW (lockParams "lockdir") .noData taskSolo).args
    ∧ createBenchmark [taskSolo] pcW cwW .mkdirFails "lockdir" .noData
        = .error "UnboundLocalError" :=
  ⟨((lock_failure_behavior [taskSolo] pcW cwW "lockdir" .noData).2.2.2.1 taskSolo
      (by decide)).1,
    (lock_failure_behavior [taskSolo] pcW cwW "lockdir" .noData).2.2.2.2
      (by decide)⟩

/-- C10: with `data = None` (no sizing policy), `create_benchmark` still
returns a plan (provided the lock-folder section did not crash), every
task's files list is empty, no root input data is generated on disk, and no
task's command arguments contain an `--out` flag or input file names — the
arguments are exactly the base arguments (task name, `--percent-cpu`,
`--cpu-work`, and the lock parameters when a folder was supplied). -/
theorem create_no_data_plan (tasks : List WTask) (pc cw : WTask → String)
    (ls : LockSetup) (folder : String) (hls : ls ≠ LockSetup.mkdirFails) :
    createBenchmark tasks pc cw ls folder .noData
      = .ok (tasks.map (fun t =>
          ⟨t.name, [], baseArgs pc cw (lockList ls folder) t⟩), false)
    ∧ ∀ t ∈ tasks, (∀ r, t.name ≠ "--out " ++ r) →
        ∀ a ∈ (taskPlanOf tasks pc cw (lockList ls folder) .noData t).args,
          ∀ r : String, a ≠ "--out " ++ r := by
  constructor
  · cases ls with
    | mkdirFails => exact absurd rfl hls
    | notGiven => rfl
    | created => rfl
    | openFails => rfl
  · intro t _ht hname a ha r
    have hargs : (taskPlanOf tasks pc cw (lockList ls folder) .noData t).args
        = [t.name, "--percent-cpu " ++ pc t, "--cpu-work " ++ cw t]
          ++ lockList ls folder := rfl
    rw [hargs] at ha
    rcases List.mem_append.mp ha with hb | hl
    · rcases List.mem_cons.mp hb with h1 | hb
      · rw [h1]; exact hname r
      rcases List.mem_cons.mp hb with h2 | hb
      · rw [h2]
        exact append_ne_of_third_char (pc t) r (by decide) (by decide) (by decide)
      rcases List.mem_cons.mp hb with h3 | hb
      · rw [h3]
        exact append_ne_of_third_char (cw t) r (by decide) (by decide) (by decide)
      · cases hb
    · cases ls with
      | notGiven => cases hl
      | mkdirFails => exact absurd rfl hls
      | created =>
          rcases List.mem_cons.mp hl with h1 | hl
          · rw [h1, String.append_assoc]
            exact append_ne_of_third_char _ r (by decide) (by decide) (by decide)
          rcases List.mem_cons.mp hl with h2 | hl
          · rw [h2, String.append_assoc]
            exact append_ne_of_third_char _ r (by decide) (by decide) (by decide)
          · cases hl
      | openFails =>
          rcases List.mem_cons.mp hl with h1 | hl
          · rw [h1, String.append_assoc]
            exact append_ne_of_third_char _ r (by decide) (by decide) (by decide)
          rcases List.mem_cons.mp hl with h2 | hl
          · rw [h2, String.append_assoc]
            exact append_ne_of_third_char _ r (by decide) (by decide) (by decide)
          · cases hl

/-- Witness for `create_no_data_plan` on the 2-task chain with a working
lock folder. -/
theorem create_no_data_plan_witness :
    createBenchmark chain2 pcW cwW .created "lockdir" .noData
      = .ok (chain2.map (fun t =>
          ⟨t.name, [], baseArgs pcW cwW (lockList .created "lockdir") t⟩),
          false) :=
  (create_no_data_plan chain2 pcW cwW .created "lockdir" (by decide)).1

lemma nodup_snoc {α : Type} [DecidableEq α] {l : List α} {a : α}
    (hl : l.Nodup) (ha : a ∉ l) : (l ++ [a]).Nodup := by
  rw [List.nodup_append]
  exact ⟨hl, List.nodup_singleton a, by
    intro x hx hmem
    rw [List.mem_singleton.mp hmem] at hx
    exact ha hx⟩

lemma schedPass_invariant (present : Nat → Nat → String → Bool) (p : Nat)
    (tasks : List SchedTask) :
    ∀ (rest : List SchedTask) (i : Nat) (ex : List String)
      (tr : List LaunchEvent),
      rest = tasks.drop i →
      (∀ e ∈ tr, EventOk tasks present e) →
      (tr.map (fun e => e.taskName)).Nodup →
      (∀ e ∈ tr, e.taskName ∈ ex) →
      (∀ e ∈ (schedPass present p rest i ex tr).2, EventOk tasks present e)
      ∧ ((schedPass present p rest i ex tr).2.map (fun e => e.taskName)).Nodup
      ∧ (∀ e ∈ (schedPass present p rest i ex tr).2,
          e.taskName ∈ (schedPass present p rest i ex tr).1) := by
  intro rest
  induction rest with
  | nil =>
      intro i ex tr _hdrop hok hnd hmem
      exact ⟨hok, hnd, hmem⟩
  | cons t rest ih =>
      intro i ex tr hdrop hok hnd hmem
      have hdrop' : rest = tasks.drop (i + 1) := by
        rw [← List.tail_drop, ← hdrop]
        rfl
      have hti : tasks[i]? = some t := by
        have h0 : (tasks.drop i)[0]? = some t := by rw [← hdrop]; simp
        rw [List.getElem?_drop] at h0
        simpa using h0
      unfold schedPass
      by_cases hex : t.name ∈ ex
      · rw [if_pos hex]
        exact ih (i + 1) ex tr hdrop' hok hnd hmem
      · rw [if_neg hex]
        by_cases hready : t.inputs.all (fun f => present p i f) = true
        · rw [if_pos hready]
          refine ih (i + 1) (ex ++ [t.name]) (tr ++ [⟨p, i, t.name, t.inputs⟩])
            hdrop' ?_ ?_ ?_
          · intro e he
            rcases List.mem_append.mp he with hold | hnew
            · exact hok e hold
            · rw [List.mem_singleton.mp hnew]
              exact ⟨hti, hready⟩
          · rw [List.map_append]
            refine nodup_snoc hnd ?_
            intro hbad
            obtain ⟨e, hemem, hename⟩ := List.mem_map.mp hbad
            have h1 : e.taskName = t.name := by simpa using hename
            exact hex (h1 ▸ hmem e hemem)
          · intro e he
            rcases List.mem_append.mp he with hold | hnew
            · exact List.mem_append_left _ (hmem e hold)
            · rw [List.mem_singleton.mp hnew]
              exact List.mem_append_right _ (List.mem_singleton.mpr rfl)
        · rw [if_neg hready]
          exact ih (i + 1) ex tr hdrop' hok hnd hmem

lemma schedRun_invariant (present : Nat → Nat → String → Bool)
    (tasks : List SchedTask) :
    ∀ (fuel p : Nat) (ex : List String) (tr : List LaunchEvent),
      (∀ e ∈ tr, EventOk tasks present e) →
      (tr.map (fun e => e.taskName)).Nodup →
      (∀ e ∈ tr, e.taskName ∈ ex) →
      (∀ e ∈ schedRun present tasks fuel p ex tr, EventOk tasks present e)
      ∧ ((schedRun present tasks fuel p ex tr).map
          (fun e => e.taskName)).Nodup := by
  intro fuel
  induction fuel with
  | zero =>
      intro p ex tr hok hnd _hmem
      exact ⟨hok, hnd⟩
  | succ fuel ih =>
      intro p ex tr hok hnd hmem
      unfold schedRun
      by_cases hdone : tasks.length ≤ ex.length
      · rw [if_pos hdone]
        exact ⟨hok, hnd⟩
      · rw [if_neg hdone]
        obtain ⟨hok', hnd', hmem'⟩ :=
          schedPass_invariant present p tasks tasks 0 ex tr rfl hok hnd hmem
        exact ih (p + 1) _ _ hok' hnd' hmem'

/-- C2: over a finalized plan, the scheduler never launches a task's
process before every one of that task's declared INPUT files is observed
present, and every task name is launched at most once (enforced by
membership in the executed set). -/
theorem scheduler_launch_order (present : Nat → Nat → String → Bool)
    (plan : List TaskPlan) (fuel : Nat) :
    (∀ e ∈ schedRun present (plan.map schedTaskOfPlan) fuel 0 [] [],
      ∃ tp ∈ plan, tp.name = e.taskName
        ∧ e.inputs = (tp.files.filter (fun f => f.link == "input")).map
            (fun f => f.name)
        ∧ e.inputs.all (fun f => present e.passIdx e.taskIdx f) = true)
    ∧ ((schedRun present (plan.map schedTaskOfPlan) fuel 0 [] []).map
        (fun e => e.taskName)).Nodup := by
  obtain ⟨hok, hnd⟩ := schedRun_invariant present (plan.map schedTaskOfPlan)
    fuel 0 [] [] (by intro e he; cases he) List.nodup_nil
    (by intro e he; cases he)
  refine ⟨?_, hnd⟩
  intro e he
  obtain ⟨hidx, hready⟩ := hok e he
  rw [List.getElem?_map] at hidx
  cases htp : plan[e.taskIdx]? with
  | none => rw [htp] at hidx; cases hidx
  | some tp =>
      rw [htp] at hidx
      have htpe : schedTaskOfPlan tp = ⟨e.taskName, e.inputs⟩ := by
        simpa using hidx
      refine ⟨tp, List.getElem?_mem htp, ?_, ?_, hready⟩
      · have := congrArg SchedTask.name htpe
        simpa [schedTaskOfPlan] using this
      · have := congrArg SchedTask.inputs htpe
        simp only [schedTaskOfPlan] at this
        exact this.symm

/-- Witness for `scheduler_launch_order`: a 1-task plan under an
all-present filesystem oracle launches its task exactly once, with its
declared input observed present. -/
theorem scheduler_launch_order_witness :
    (∃ tp ∈ [planSolo], tp.name = "a"
        ∧ ["x.txt"] = (tp.files.filter (fun f => f.link == "input")).map
            (fun f => f.name)
        ∧ (["x.txt"] : List String).all (fun f => presentAll 0 0 f) = true)
    ∧ ((schedRun presentAll ([planSolo].map schedTaskOfPlan) 2 0 [] []).map
        (fun e => e.taskName)).Nodup :=
  ⟨(scheduler_launch_order presentAll [planSolo] 2).1 ⟨0, 0, "a", ["x.txt"]⟩
      (by decide),
    (scheduler_launch_order presentAll [planSolo] 2).2⟩

lemma filesOfTaskInt_size {fs : Nat} {t : WTask} :
    ∀ f ∈ filesOfTaskInt fs t, f.size = fs := by
  intro f hf
  unfold filesOfTaskInt at hf
  rcases List.mem_cons.mp hf with h1 | h2
  · rw [h1]
  · by_cases hp : t.parents.isEmpty
    · rw [if_pos hp] at h2
      rw [List.mem_singleton.mp h2]
    · rw [if_neg hp] at h2
      obtain ⟨p, _, hpf⟩ := List.mem_map.mp h2
      rw [← hpf]

lemma counts_partition (tasks : List WTask) :
    countRoots tasks + countNonRoots tasks = tasks.length := by
  induction tasks with
  | nil => rfl
  | cons t ts ih =>
      by_cases h : t.parents.isEmpty
      · simp [countRoots, countNonRoots, List.filter_cons, h] at ih ⊢
        omega
      · rw [Bool.not_eq_true] at h
        simp [countRoots, countNonRoots, List.filter_cons, h] at ih ⊢
        omega

lemma calc_input_files_snd (tasks : List WTask) :
    (calculate_input_files tasks).2
      = 2 * countRoots tasks + countNonRoots tasks := by
  unfold calculate_input_files
  rw [show ((0, 0) : Nat × Nat) = ((0 : Nat), (0 : Nat)) from rfl,
    calc_input_files_foldl]
  ring

lemma pyRound_eq (num den : Nat) :
    pyRound num den
      = if den < 2 * (num % den) then num / den + 1
        else if 2 * (num % den) < den then num / den
        else if num / den % 2 == 0 then num / den else num / den + 1 := rfl

lemma pyRound_bounds (num den : Nat) (hden : 0 < den) :
    pyRound num den * den ≤ num + den
    ∧ num ≤ pyRound num den * den + den := by
  have hmod : num % den < den := Nat.mod_lt num hden
  have hdiv : num / den * den + num % den = num := Nat.div_add_mod' num den
  have hq : num / den * den ≤ num := by
    calc num / den * den ≤ num / den * den + num % den := Nat.le_add_right _ _
      _ = num := hdiv
  have hup : num ≤ num / den * den + den := by
    nth_rewrite 1 [← hdiv]
    exact Nat.add_le_add_left (le_of_lt hmod) _
  have case_q : num / den * den ≤ num + den ∧ num ≤ num / den * den + den :=
    ⟨le_trans hq (Nat.le_add_right _ _), hup⟩
  have case_q1 : (num / den + 1) * den ≤ num + den
      ∧ num ≤ (num / den + 1) * den + den := by
    rw [Nat.succ_mul]
    exact ⟨Nat.add_le_add_right hq den, le_trans hup (Nat.le_add_right _ _)⟩
  rw [pyRound_eq]
  by_cases h1 : den < 2 * (num % den)
  · rw [if_pos h1]
    exact case_q1
  · rw [if_neg h1]
    by_cases h2 : 2 * (num % den) < den
    · rw [if_pos h2]
      exact case_q
    · rw [if_neg h2]
      by_cases h3 : num / den % 2 == 0
      · rw [if_pos h3]
        exact case_q
      · rw [if_neg h3]
        exact case_q1

lemma planAllFilesInt_size {tasks : List WTask} {fs : Nat} :
    ∀ f ∈ planAllFilesInt tasks fs, f.size = fs := by
  intro f hf
  obtain ⟨t, _, hft⟩ := List.mem_flatMap.mp hf
  exact filesOfTaskInt_size f hft

lemma planFileNames_toFinset (tasks : List WTask) (fs : Nat)
    (hpar : ∀ t ∈ tasks, ∀ p ∈ t.parents, ∃ u ∈ tasks, u.name = p) :
    (planFileNames tasks fs).toFinset
      = (tasks.map (fun t => t.name ++ "_output.txt")).toFinset
        ∪ ((tasks.filter (fun t => t.parents.isEmpty)).map
            (fun t => t.name ++ "_input.txt")).toFinset := by
  ext n
  simp only [List.mem_toFinset, Finset.mem_union]
  unfold planFileNames planAllFilesInt
  constructor
  · intro hn
    obtain ⟨f, hf, hfn⟩ := List.mem_map.mp hn
    obtain ⟨t, ht, hft⟩ := List.mem_flatMap.mp hf
    unfold filesOfTaskInt at hft
    rcases List.mem_cons.mp hft with h1 | h2
    · left
      exact List.mem_map.mpr ⟨t, ht, by rw [← hfn, h1]⟩
    · by_cases hp : t.parents.isEmpty
      · rw [if_pos hp] at h2
        right
        refine List.mem_map.mpr ⟨t, List.mem_filter.mpr ⟨ht, hp⟩, ?_⟩
        rw [← hfn, List.mem_singleton.mp h2]
      · rw [if_neg hp] at h2
        obtain ⟨p, hpmem, hpf⟩ := List.mem_map.mp h2
        obtain ⟨u, hu, hup⟩ := hpar t ht p hpmem
        left
        refine List.mem_map.mpr ⟨u, hu, ?_⟩
        rw [← hfn, ← hpf, hup]
  · intro hn
    rcases hn with ho | hr
    · obtain ⟨t, ht, htn⟩ := List.mem_map.mp ho
      refine List.mem_map.mpr ⟨⟨"output", t.name ++ "_output.txt", fs⟩, ?_, htn⟩
      exact List.mem_flatMap.mpr ⟨t, ht, List.mem_cons_self _ _⟩
    · obtain ⟨t, htf, htn⟩ := List.mem_map.mp hr
      obtain ⟨ht, hp⟩ := List.mem_filter.mp htf
      refine List.mem_map.mpr ⟨⟨"input", t.name ++ "_input.txt", fs⟩, ?_, htn⟩
      refine List.mem_flatMap.mpr ⟨t, ht, ?_⟩
      unfold filesOfTaskInt
      rw [if_pos hp]
      exact List.mem_cons_of_mem _ (List.mem_singleton.mpr rfl)

lemma list_toFinset_map {α β : Type} [DecidableEq α] [DecidableEq β]
    (f : α → β) (l : List α) :
    (l.map f).toFinset = l.toFinset.image f := by
  ext b
  simp [List.mem_toFinset, Finset.mem_image, List.mem_map]

lemma plan_distinct_card (tasks : List WTask) (fs : Nat)
    (hnd : (tasks.map (fun t => t.name)).Nodup)
    (hpar : ∀ t ∈ tasks, ∀ p ∈ t.parents, ∃ u ∈ tasks, u.name = p) :
    (planFileNames tasks fs).dedup.length
      = tasks.length + countRoots tasks := by
  rw [← List.card_toFinset, planFileNames_toFinset tasks fs hpar]
  have hmap1 : tasks.map (fun t => t.name ++ "_output.txt")
      = (tasks.map (fun t => t.name)).map (fun s => s ++ "_output.txt") := by
    rw [List.map_map]
    rfl
  have hmap2 : (tasks.filter (fun t => t.parents.isEmpty)).map
        (fun t => t.name ++ "_input.txt")
      = ((tasks.filter (fun t => t.parents.isEmpty)).map (fun t => t.name)).map
          (fun s => s ++ "_input.txt") := by
    rw [List.map_map]
    rfl
  have hinjO : Function.Injective (fun s : String => s ++ "_output.txt") :=
    fun a b h => string_append_cancel_right h
  have hinjI : Function.Injective (fun s : String => s ++ "_input.txt") :=
    fun a b h => string_append_cancel_right h
  have hndR : ((tasks.filter (fun t => t.parents.isEmpty)).map
      (fun t => t.name)).Nodup :=
    hnd.sublist ((List.filter_sublist tasks).map (fun t => t.name))
  have hdisj : Disjoint
      (tasks.map (fun t => t.name ++ "_output.txt")).toFinset
      ((tasks.filter (fun t => t.parents.isEmpty)).map
          (fun t => t.name ++ "_input.txt")).toFinset := by
    rw [Finset.disjoint_left]
    intro n hn1 hn2
    rw [List.mem_toFinset] at hn1 hn2
    obtain ⟨a, _, ha⟩ := List.mem_map.mp hn1
    obtain ⟨b, _, hb⟩ := List.mem_map.mp hn2
    exact string_output_ne_input a.name b.name (ha.trans hb.symm)
  have hcardO : (tasks.map (fun t => t.name ++ "_output.txt")).toFinset.card
      = tasks.length := by
    rw [hmap1, list_toFinset_map, Finset.card_image_of_injective _ hinjO,
      List.toFinset_card_of_nodup hnd, List.length_map]
  have hcardR : ((tasks.filter (fun t => t.parents.isEmpty)).map
        (fun t => t.name ++ "_input.txt")).toFinset.card
      = countRoots tasks := by
    rw [hmap2, list_toFinset_map, Finset.card_image_of_injective _ hinjI,
      List.toFinset_card_of_nodup hndR, List.length_map]
    rfl
  rw [Finset.card_union_of_disjoint hdisj, hcardO, hcardR]

/-- C5: for every well-formed non-empty DAG (unique task names, every
parent name resolving to a task), under the total-footprint policy with
requested data `d` MB the sum of the sizes of all distinct files declared
in the finalized plan differs from `d * 1000000` by at most `total_files`
(stated as the two Nat inequalities `sum ≤ d*1000000 + total_files` and
`d*1000000 ≤ sum + total_files`).  Files are identified by their globally
unique names, per the plan data model; each consumer redeclares its
producer's file under the same name. -/
theorem total_footprint_within_tolerance (tasks : List WTask) (d : Nat)
    (hne : tasks ≠ [])
    (hnd : (tasks.map (fun t => t.name)).Nodup)
    (hpar : ∀ t ∈ tasks, ∀ p ∈ t.parents, ∃ u ∈ tasks, u.name = p) :
    planTotalBytesInt tasks (benchFileSize tasks d)
        ≤ d * 1000000 + (calculate_input_files tasks).2
    ∧ d * 1000000
        ≤ planTotalBytesInt tasks (benchFileSize tasks d)
          + (calculate_input_files tasks).2 := by
  have htf : (calculate_input_files tasks).2
      = tasks.length + countRoots tasks := by
    rw [calc_input_files_snd, ← counts_partition tasks]
    ring
  have hpos : 0 < (calculate_input_files tasks).2 := by
    have h1 : 0 < tasks.length := List.length_pos.mpr hne
    rw [htf]
    omega
  have hsz : ∀ n ∈ (planFileNames tasks (benchFileSize tasks d)).dedup,
      sizeOfName tasks (benchFileSize tasks d) n = benchFileSize tasks d := by
    intro n hn
    have hn' : n ∈ planFileNames tasks (benchFileSize tasks d) :=
      List.mem_dedup.mp hn
    obtain ⟨f, hf, hfn⟩ := List.mem_map.mp hn'
    have hsome : ((planAllFilesInt tasks (benchFileSize tasks d)).find?
        (fun g => g.name == n)).isSome :=
      List.find?_isSome.mpr ⟨f, hf, by rw [hfn]; simp⟩
    obtain ⟨f0, hf0⟩ := Option.isSome_iff_exists.mp hsome
    have hf0mem := List.mem_of_find?_eq_some hf0
    unfold sizeOfName
    rw [hf0]
    simp [planAllFilesInt_size f0 hf0mem]
  have hsum : planTotalBytesInt tasks (benchFileSize tasks d)
      = (planFileNames tasks (benchFileSize tasks d)).dedup.length
        * benchFileSize tasks d := by
    unfold planTotalBytesInt
    rw [List.map_congr_left hsz, List.map_const', List.sum_replicate,
      smul_eq_mul]
  obtain ⟨hb1, hb2⟩ :=
    pyRound_bounds (d * 1000000) (calculate_input_files tasks).2 hpos
  have hcard := plan_distinct_card tasks (benchFileSize tasks d) hnd hpar
  constructor
  · rw [hsum, hcard, ← htf,
      Nat.mul_comm (calculate_input_files tasks).2 (benchFileSize tasks d)]
    exact hb1
  · rw [hsum, hcard, ← htf,
      Nat.mul_comm (calculate_input_files tasks).2 (benchFileSize tasks d)]
    exact hb2

/-- Witness for `total_footprint_within_tolerance` at the 3-task chain with
`d = 10` MB. -/
theorem total_footprint_within_tolerance_witness :
    planTotalBytesInt chain3 (benchFileSize chain3 10)
        ≤ 10 * 1000000 + (calculate_input_files chain3).2
    ∧ 10 * 1000000
        ≤ planTotalBytesInt chain3 (benchFileSize chain3 10)
          + (calculate_input_files chain3).2 :=
  total_footprint_within_tolerance chain3 10 (by decide) (by decide)
    (by decide)
